import Mathlib

/-!
Verification of the slot-availability engine (`calculateAvailableSlots` in
`utils/slotLogic.ts`) of the restaurant-reservation admin panel.

The engine is a pure function from (date, party size, settings, reservations,
tables, special opening hours) to a list of time slots, each listing the
tables free at that time.  The shallow embedding below translates the
TypeScript source directly:

* "HH:MM" time strings stay strings; `toMinutes` mirrors
  `split(':').map(Number)` followed by anchoring on the date's midnight
  (all Date values in the source are built from the same calendar date, so
  comparisons between them reduce to minutes-from-midnight comparisons; a
  JS `setHours` overflow past 23 rolls into the next day exactly as plain
  minute arithmetic does).
* The JS `Date` argument is read by the engine only through
  `toISOString().split('T')[0]` and `getDayOfWeek`, so it is embedded as the
  pair of those two projections (`DateInput`).
* `string | null` fields become `Option String`; JS falsiness of such a
  value (null or "") is `optFalsy`.
* The `while (currentTime < closingTime)` loop visits exactly the times
  `candidateTimes closingTime openingTime` in order and pushes a slot when
  `availableTablesForSlot` is non-empty, which is the `filterMap` below.

Malformed time strings are out of scope per the specification (caller must
supply well-formed "HH:MM"); `toMinutes` totalises them arbitrarily.
-/

/-- `ReservationStatus` enum from `constants.ts`. -/
inductive ReservationStatus where
  | PENDING
  | CONFIRMED
  | CANCELLED
  | NO_SHOW
  | PAID
deriving Repr, DecidableEq

/-- `OpeningHours` from `types.ts`: an {open, close} pair of "HH:MM" strings.
`open` is a Lean keyword, hence the guillemets. -/
structure OpeningHours where
  «open» : String
  close : String
deriving Repr, DecidableEq

/-- `Settings` from `types.ts`.  `openingHours` is a JS object keyed by
lowercase weekday name; embedded as an association list (JS objects have
unique keys, lookup takes the first match). -/
structure Settings where
  turnoverMinutes : Nat
  openingHours : List (String × OpeningHours)
  timezone : String
  overallCapacity : Option Nat := none
  noShowGraceMinutes : Option Nat := none
deriving Repr, DecidableEq

/-- `SpecialOpeningHour` from `types.ts`. -/
structure SpecialOpeningHour where
  date : String
  isOpen : Bool
  openTime : Option String
  closeTime : Option String
deriving Repr, DecidableEq

/-- `Table` from `types.ts`. -/
structure Table where
  id : String
  name : String
  capacity : Nat
  sectionId : String
  isReady : Bool
deriving Repr, DecidableEq

/-- `Reservation` from `types.ts` (the optional display-only fields
`checkAmount`, `tableName`, `sectionName` are not read by the engine and
are omitted).  `tableId` is `string | null`. -/
structure Reservation where
  id : String
  customerName : String
  contact : String
  date : String
  time : String
  covers : Nat
  tableId : Option String
  sectionId : String
  status : ReservationStatus
  notes : String
  createdAt : String
deriving Repr, DecidableEq

/-- The slot record returned by the engine (`TimeSlot` in `slotLogic.ts`). -/
structure TimeSlot where
  time : String
  availableTables : List Table
deriving Repr, DecidableEq

/-- The engine reads its JS `Date` argument only through
`date.toISOString().split('T')[0]` (a "YYYY-MM-DD" string) and
`getDayOfWeek date` (a lowercase English weekday name), and anchors every
time it builds on that date's midnight; so the date is embedded as this
pair of projections. -/
structure DateInput where
  isoDate : String
  dayOfWeek : String
deriving Repr, DecidableEq

/-- JS falsiness of a `string | null` value: `null` or the empty string. -/
def optFalsy : Option String → Bool
  | none => true
  | some s => s.isEmpty

/-- `Number(cs)` on one component of an "HH:MM" split: the numeric value
when the component is all digits (this also maps "" to 0, as JS does);
0 as an arbitrary total default otherwise — malformed time strings are
out of scope per the specification. -/
def parseNum (cs : List Char) : Nat :=
  if cs.all Char.isDigit then
    cs.foldl (fun n c => n * 10 + (c.toNat - 48)) 0
  else
    0

/-- `s.split(':')` on the underlying character list (structural recursion,
so that concrete runs reduce inside the kernel; it agrees with the JS
split: colon-separated components, empty components kept). -/
def splitOnColon : List Char → List (List Char)
  | [] => [[]]
  | ch :: rest =>
    match splitOnColon rest with
    | [] => [[]]
    | part :: parts =>
      if ch = ':' then
        [] :: part :: parts
      else
        (ch :: part) :: parts

/-- Minutes from the date's midnight of an "HH:MM" string:
`const [h, m] = s.split(':').map(Number); setHours(h, m, 0, 0)`.
Faithful for well-formed input (two numeric components); totalised
arbitrarily otherwise, which the specification leaves undefined. -/
def toMinutes (s : String) : Nat :=
  match (splitOnColon s.data).map parseNum with
  | h :: m :: _ => h * 60 + m
  | [h] => h * 60
  | [] => 0

/-- `String(n).padStart(2, '0')`. -/
def pad2 (n : Nat) : String :=
  if n < 10 then "0" ++ toString n else toString n

/-- The slot label built in the loop:
`${pad(getHours())}:${pad(getMinutes())}` of the date anchored at `t`
minutes past midnight (`getHours` reduces mod 24 when `t` overflows a day). -/
def formatSlotTime (t : Nat) : String :=
  pad2 (t / 60 % 24) ++ ":" ++ pad2 (t % 60)

/-- The `while (currentTime < closingTime)` loop with an explicit fuel
counter (the loop advances `currentTime` by 15 each round, so any fuel of
at least `closingTime - currentTime` rounds is enough; structural recursion
on the fuel keeps the definition kernel-computable). -/
def slotLoopFuel : Nat → Nat → Nat → List Nat
  | 0, _, _ => []
  | fuel + 1, closingTime, currentTime =>
    if currentTime < closingTime then
      currentTime :: slotLoopFuel fuel closingTime (currentTime + 15)
    else
      []

/-- The candidate slot start times of the
`while (currentTime < closingTime) { ...; currentTime += 15 min }` loop:
every visited value of `currentTime`, in visit order
(`candidateTimes_eq` below recovers the loop-shaped unfolding). -/
def candidateTimes (closingTime currentTime : Nat) : List Nat :=
  slotLoopFuel (closingTime - currentTime) closingTime currentTime

/-- `availableTablesForSlot` at candidate time `t`: the eligible tables
whose reservations (those with `r.tableId === table.id`) never satisfy
`newBookingStartTime < resEndTime && newBookingEndTime > resStartTime`
with the occupancy windows `[t, t+turnover)` and `[resStart, resStart+turnover)`. -/
def availableTablesAt (turnoverMinutes : Nat) (reservations : List Reservation)
    (eligibleTables : List Table) (t : Nat) : List Table :=
  eligibleTables.filter fun table =>
    let conflictingReservations := reservations.filter fun r => r.tableId == some table.id
    !(conflictingReservations.any fun res =>
      let resStartTime := toMinutes res.time
      let resEndTime := resStartTime + turnoverMinutes
      let newBookingEndTime := t + turnoverMinutes
      decide (t < resEndTime) && decide (newBookingEndTime > resStartTime))

/-- The part of `calculateAvailableSlots` after the opening hours have been
resolved: the `!effectiveOpeningHours.open` falsy check, the eligible-table
filter with its early return, and the slot loop. -/
def computeWithHours (effectiveOpeningHours : OpeningHours) (covers : Nat)
    (settings : Settings) (reservations : List Reservation)
    (tables : List Table) : List TimeSlot :=
  if effectiveOpeningHours.«open».isEmpty then
    []
  else
    let eligibleTables := tables.filter fun t => decide (t.capacity ≥ covers) && t.isReady
    if eligibleTables.length = 0 then
      []
    else
      let openingTime := toMinutes effectiveOpeningHours.«open»
      let closingTime := toMinutes effectiveOpeningHours.close
      (candidateTimes closingTime openingTime).filterMap fun currentTime =>
        let availableTablesForSlot :=
          availableTablesAt settings.turnoverMinutes reservations eligibleTables currentTime
        if availableTablesForSlot.length > 0 then
          some { time := formatSlotTime currentTime, availableTables := availableTablesForSlot }
        else
          none

/-- `calculateAvailableSlots` from `utils/slotLogic.ts`.  Resolves the
effective opening hours (special-hours override by exact date first, with
authoritative closure on `!isOpen || !openTime || !closeTime`; weekday
default otherwise, absent entry or falsy `open` meaning closed), then
delegates to `computeWithHours`. -/
def calculateAvailableSlots (date : DateInput) (covers : Nat) (settings : Settings)
    (reservations : List Reservation) (tables : List Table)
    (specialOpeningHours : List SpecialOpeningHour) : List TimeSlot :=
  let dateString := date.isoDate
  match specialOpeningHours.find? fun h => h.date == dateString with
  | some specialHour =>
      if !specialHour.isOpen || optFalsy specialHour.openTime
          || optFalsy specialHour.closeTime then
        []
      else
        computeWithHours
          { «open» := specialHour.openTime.getD "", close := specialHour.closeTime.getD "" }
          covers settings reservations tables
  | none =>
      match settings.openingHours.lookup date.dayOfWeek with
      | none => []
      | some effectiveOpeningHours =>
          computeWithHours effectiveOpeningHours covers settings reservations tables

/-! ## Basic lemmas about the slot loop -/

theorem slotLoopFuel_stop (fuel closingTime currentTime : Nat)
    (h : ¬ currentTime < closingTime) :
    slotLoopFuel fuel closingTime currentTime = [] := by
  cases fuel <;> simp [slotLoopFuel, h]

theorem slotLoopFuel_congr :
    ∀ fuel₁ fuel₂ closingTime currentTime : Nat,
      closingTime - currentTime ≤ fuel₁ → closingTime - currentTime ≤ fuel₂ →
      slotLoopFuel fuel₁ closingTime currentTime = slotLoopFuel fuel₂ closingTime currentTime := by
  intro fuel₁
  induction fuel₁ with
  | zero =>
      intro fuel₂ closingTime currentTime h₁ h₂
      rw [slotLoopFuel_stop 0 _ _ (by omega), slotLoopFuel_stop fuel₂ _ _ (by omega)]
  | succ fuel ih =>
      intro fuel₂ closingTime currentTime h₁ h₂
      by_cases hc : currentTime < closingTime
      · cases fuel₂ with
        | zero => omega
        | succ fuel₂ =>
            simp only [slotLoopFuel, if_pos hc]
            rw [ih fuel₂ closingTime (currentTime + 15) (by omega) (by omega)]
      · rw [slotLoopFuel_stop _ _ _ hc, slotLoopFuel_stop _ _ _ hc]

/-- The loop-shaped unfolding of `candidateTimes`. -/
theorem candidateTimes_eq (closingTime currentTime : Nat) :
    candidateTimes closingTime currentTime =
      if currentTime < closingTime then
        currentTime :: candidateTimes closingTime (currentTime + 15)
      else
        [] := by
  unfold candidateTimes
  by_cases hc : currentTime < closingTime
  · have hsplit : closingTime - currentTime = (closingTime - currentTime - 1) + 1 := by omega
    rw [hsplit]
    simp only [slotLoopFuel, if_pos hc]
    rw [slotLoopFuel_congr (closingTime - currentTime - 1) (closingTime - (currentTime + 15))
      closingTime (currentTime + 15) (by omega) (by omega)]
  · rw [slotLoopFuel_stop _ _ _ hc, if_neg hc]

theorem mem_slotLoopFuel :
    ∀ (fuel closingTime currentTime t : Nat), closingTime - currentTime ≤ fuel →
      (t ∈ slotLoopFuel fuel closingTime currentTime ↔
        (∃ i, t = currentTime + 15 * i) ∧ t < closingTime) := by
  intro fuel
  induction fuel with
  | zero =>
      intro closingTime currentTime t h
      simp only [slotLoopFuel, List.not_mem_nil, false_iff]
      rintro ⟨⟨i, rfl⟩, hlt⟩
      omega
  | succ fuel ih =>
      intro closingTime currentTime t h
      by_cases hc : currentTime < closingTime
      · simp only [slotLoopFuel, if_pos hc, List.mem_cons]
        rw [ih closingTime (currentTime + 15) t (by omega)]
        constructor
        · rintro (rfl | ⟨⟨i, rfl⟩, hlt⟩)
          · exact ⟨⟨0, by omega⟩, hc⟩
          · exact ⟨⟨i + 1, by omega⟩, hlt⟩
        · rintro ⟨⟨i, rfl⟩, hlt⟩
          cases i with
          | zero => left; omega
          | succ j => right; exact ⟨⟨j, by omega⟩, hlt⟩
      · simp only [slotLoopFuel, if_neg hc, List.not_mem_nil, false_iff]
        rintro ⟨⟨i, rfl⟩, hlt⟩
        omega

/-- A time is a candidate slot start iff it is the opening time plus a
multiple of 15 minutes and lies strictly before the closing time. -/
theorem mem_candidateTimes (closingTime currentTime t : Nat) :
    t ∈ candidateTimes closingTime currentTime ↔
      (∃ i, t = currentTime + 15 * i) ∧ t < closingTime :=
  mem_slotLoopFuel _ _ _ _ le_rfl

theorem of_mem_slotLoopFuel :
    ∀ (fuel closingTime currentTime t : Nat), t ∈ slotLoopFuel fuel closingTime currentTime →
      (∃ i, t = currentTime + 15 * i) ∧ t < closingTime := by
  intro fuel
  induction fuel with
  | zero => intro closingTime currentTime t ht; simp [slotLoopFuel] at ht
  | succ fuel ih =>
      intro closingTime currentTime t ht
      by_cases hc : currentTime < closingTime
      · simp only [slotLoopFuel, if_pos hc, List.mem_cons] at ht
        rcases ht with rfl | ht
        · exact ⟨⟨0, by omega⟩, hc⟩
        · obtain ⟨⟨i, rfl⟩, hlt⟩ := ih closingTime (currentTime + 15) t ht
          exact ⟨⟨i + 1, by omega⟩, hlt⟩
      · simp [slotLoopFuel, hc] at ht

theorem slotLoopFuel_pairwise :
    ∀ (fuel closingTime currentTime : Nat),
      (slotLoopFuel fuel closingTime currentTime).Pairwise (· < ·) := by
  intro fuel
  induction fuel with
  | zero => intro closingTime currentTime; simp [slotLoopFuel]
  | succ fuel ih =>
      intro closingTime currentTime
      by_cases hc : currentTime < closingTime
      · simp only [slotLoopFuel, if_pos hc]
        refine List.Pairwise.cons ?_ (ih closingTime (currentTime + 15))
        intro t ht
        obtain ⟨⟨i, rfl⟩, _⟩ := of_mem_slotLoopFuel fuel closingTime (currentTime + 15) t ht
        omega
      · simp [slotLoopFuel, hc]

/-- Candidate slot times are strictly increasing (chronological order). -/
theorem candidateTimes_pairwise (closingTime currentTime : Nat) :
    (candidateTimes closingTime currentTime).Pairwise (· < ·) :=
  slotLoopFuel_pairwise _ _ _

/-! ## Membership characterizations -/

/-- A table survives the conflict filter at candidate time `t` iff it is
eligible and none of its reservations' occupancy windows overlap
`[t, t + turnover)` in the half-open sense. -/
theorem mem_availableTablesAt (turnoverMinutes : Nat) (reservations : List Reservation)
    (eligibleTables : List Table) (t : Nat) (table : Table) :
    table ∈ availableTablesAt turnoverMinutes reservations eligibleTables t ↔
      table ∈ eligibleTables ∧
        ∀ r ∈ reservations, r.tableId = some table.id →
          ¬(t < toMinutes r.time + turnoverMinutes ∧
            t + turnoverMinutes > toMinutes r.time) := by
  simp only [availableTablesAt, List.mem_filter, Bool.not_eq_true', List.any_eq_false,
    List.mem_filter, beq_iff_eq, Bool.and_eq_true, decide_eq_true_eq, not_and]
  constructor
  · rintro ⟨he, hall⟩
    exact ⟨he, fun r hr hid hlt hgt => hall r ⟨hr, hid⟩ hlt hgt⟩
  · rintro ⟨he, hall⟩
    exact ⟨he, fun r hr hlt hgt => hall r hr.1 hr.2 hlt hgt⟩

/-- Unpacking a slot of `computeWithHours`: it comes from a candidate time
whose conflict-free table list is non-empty, and carries exactly that list. -/
theorem mem_computeWithHours (effectiveOpeningHours : OpeningHours) (covers : Nat)
    (settings : Settings) (reservations : List Reservation) (tables : List Table)
    (slot : TimeSlot)
    (hmem : slot ∈ computeWithHours effectiveOpeningHours covers settings reservations tables) :
    ∃ t, t ∈ candidateTimes (toMinutes effectiveOpeningHours.close)
            (toMinutes effectiveOpeningHours.«open») ∧
      slot.time = formatSlotTime t ∧
      slot.availableTables = availableTablesAt settings.turnoverMinutes reservations
        (tables.filter fun tb => decide (tb.capacity ≥ covers) && tb.isReady) t ∧
      slot.availableTables ≠ [] := by
  simp only [computeWithHours] at hmem
  by_cases h1 : effectiveOpeningHours.«open».isEmpty
  · rw [if_pos h1] at hmem
    exact absurd hmem (List.not_mem_nil _)
  · rw [if_neg h1] at hmem
    by_cases h2 :
        (tables.filter fun tb => decide (tb.capacity ≥ covers) && tb.isReady).length = 0
    · rw [if_pos h2] at hmem
      exact absurd hmem (List.not_mem_nil _)
    · rw [if_neg h2, List.mem_filterMap] at hmem
      obtain ⟨t, ht, hf⟩ := hmem
      by_cases h3 : (availableTablesAt settings.turnoverMinutes reservations
          (tables.filter fun tb => decide (tb.capacity ≥ covers) && tb.isReady) t).length > 0
      · rw [if_pos h3] at hf
        injection hf with hslot
        subst hslot
        refine ⟨t, ht, rfl, rfl, ?_⟩
        simpa using List.ne_nil_of_length_pos h3
      · rw [if_neg h3] at hf
        cases hf

/-- Building a slot of `computeWithHours` from a candidate time with a
non-empty conflict-free table list. -/
theorem computeWithHours_mem (effectiveOpeningHours : OpeningHours) (covers : Nat)
    (settings : Settings) (reservations : List Reservation) (tables : List Table)
    (t : Nat)
    (h1 : ¬ effectiveOpeningHours.«open».isEmpty)
    (h2 : ¬ (tables.filter fun tb => decide (tb.capacity ≥ covers) && tb.isReady).length = 0)
    (ht : t ∈ candidateTimes (toMinutes effectiveOpeningHours.close)
            (toMinutes effectiveOpeningHours.«open»))
    (h3 : availableTablesAt settings.turnoverMinutes reservations
        (tables.filter fun tb => decide (tb.capacity ≥ covers) && tb.isReady) t ≠ []) :
    (⟨formatSlotTime t,
        availableTablesAt settings.turnoverMinutes reservations
          (tables.filter fun tb => decide (tb.capacity ≥ covers) && tb.isReady) t⟩ : TimeSlot) ∈
      computeWithHours effectiveOpeningHours covers settings reservations tables := by
  simp only [computeWithHours, if_neg h1, if_neg h2, List.mem_filterMap]
  refine ⟨t, ht, ?_⟩
  rw [if_pos (List.length_pos.mpr h3)]

/-- The branch structure of `calculateAvailableSlots`: for fixed date,
settings, reservations, tables and special hours, either every party size
yields the empty result (closed day), or there is one effective
opening-hours pair and every party size goes through `computeWithHours`
with it. -/
theorem calculateAvailableSlots_shape (date : DateInput) (settings : Settings)
    (reservations : List Reservation) (tables : List Table)
    (specialOpeningHours : List SpecialOpeningHour) :
    (∀ c, calculateAvailableSlots date c settings reservations tables specialOpeningHours = []) ∨
    ∃ oh, ∀ c, calculateAvailableSlots date c settings reservations tables specialOpeningHours =
      computeWithHours oh c settings reservations tables := by
  cases hfind : specialOpeningHours.find? fun h => h.date == date.isoDate with
  | some specialHour =>
      by_cases hclosed : (!specialHour.isOpen || optFalsy specialHour.openTime
          || optFalsy specialHour.closeTime) = true
      · left
        intro c
        simp only [calculateAvailableSlots]
        rw [hfind]
        simp [hclosed]
      · right
        refine ⟨⟨specialHour.openTime.getD "", specialHour.closeTime.getD ""⟩, fun c => ?_⟩
        simp only [calculateAvailableSlots]
        rw [hfind]
        simp [hclosed]
  | none =>
      cases hlook : settings.openingHours.lookup date.dayOfWeek with
      | none =>
          left
          intro c
          simp only [calculateAvailableSlots]
          rw [hfind, hlook]
      | some effectiveOpeningHours =>
          right
          refine ⟨effectiveOpeningHours, fun c => ?_⟩
          simp only [calculateAvailableSlots]
          rw [hfind, hlook]

/-! ## Concrete fixtures (used by witness theorems and scenario claims) -/

/-- One ready table of capacity 4. -/
def tableA : Table :=
  { id := "t1", name := "1", capacity := 4, sectionId := "s1", isReady := true }

/-- A Monday. -/
def dateA : DateInput :=
  { isoDate := "2025-06-02", dayOfWeek := "monday" }

/-- A Tuesday (no weekday entry in the fixtures below). -/
def dateTue : DateInput :=
  { isoDate := "2025-06-03", dayOfWeek := "tuesday" }

/-- Scenario A settings: 90-minute turnover, Monday 17:00 - 19:00. -/
def settingsA : Settings :=
  { turnoverMinutes := 90,
    openingHours := [("monday", { «open» := "17:00", close := "19:00" })],
    timezone := "Europe/Rome" }

/-- Overlap-boundary settings: 60-minute turnover, Monday 17:00 - 20:00. -/
def settingsOverlap : Settings :=
  { turnoverMinutes := 60,
    openingHours := [("monday", { «open» := "17:00", close := "20:00" })],
    timezone := "Europe/Rome" }

/-- Alignment settings: 60-minute turnover, Monday 17:10 - 18:00. -/
def settingsAlign : Settings :=
  { turnoverMinutes := 60,
    openingHours := [("monday", { «open» := "17:10", close := "18:00" })],
    timezone := "Europe/Rome" }

/-- An existing reservation at 18:00 on `tableA`. -/
def res18 : Reservation :=
  { id := "r1", customerName := "Ada", contact := "555", date := "2025-06-02",
    time := "18:00", covers := 2, tableId := some "t1", sectionId := "s1",
    status := ReservationStatus.CONFIRMED, notes := "", createdAt := "2025-06-01" }

/-- A special-hours closure for the Monday fixture date. -/
def shClosed : SpecialOpeningHour :=
  { date := "2025-06-02", isOpen := false, openTime := none, closeTime := none }

/-- A special-hours override keeping the Monday fixture date open 18:00 - 20:00. -/
def shSpecial : SpecialOpeningHour :=
  { date := "2025-06-02", isOpen := true, openTime := some "18:00", closeTime := some "20:00" }

/-- A second (duplicate-date) special-hours row, later in array order. -/
def shDup : SpecialOpeningHour :=
  { date := "2025-06-02", isOpen := true, openTime := some "10:00", closeTime := some "12:00" }

/-! ## The claims -/

/-- C6 counterexample: Scenario A (turnover 90, Monday 17:00 - 19:00, one table
of capacity 4 ready, no reservations, party of 2) yields 8 slots, not the 9
the claim states. -/
theorem scenario_a_counterexample :
    (calculateAvailableSlots dateA 2 settingsA [] [tableA] []).length ≠ 9 := by
  decide

/-- C6 (amended): Scenario A returns the slots 17:00, 17:15, ..., 18:45 —
8 slots in total — each listing the one eligible table. -/
theorem scenario_a_slots :
    calculateAvailableSlots dateA 2 settingsA [] [tableA] [] =
      [⟨"17:00", [tableA]⟩, ⟨"17:15", [tableA]⟩, ⟨"17:30", [tableA]⟩, ⟨"17:45", [tableA]⟩,
       ⟨"18:00", [tableA]⟩, ⟨"18:15", [tableA]⟩, ⟨"18:30", [tableA]⟩, ⟨"18:45", [tableA]⟩] := by
  decide

/-- C7: the engine is deterministic — componentwise-equal inputs give equal
(deep-equal) outputs.  Purity and non-mutation hold by construction in this
embedding: `calculateAvailableSlots` is a total function of its arguments. -/
theorem calculateAvailableSlots_deterministic (d₁ d₂ : DateInput) (c₁ c₂ : Nat)
    (s₁ s₂ : Settings) (r₁ r₂ : List Reservation) (tb₁ tb₂ : List Table)
    (sp₁ sp₂ : List SpecialOpeningHour)
    (hd : d₁ = d₂) (hc : c₁ = c₂) (hs : s₁ = s₂) (hr : r₁ = r₂)
    (htb : tb₁ = tb₂) (hsp : sp₁ = sp₂) :
    calculateAvailableSlots d₁ c₁ s₁ r₁ tb₁ sp₁ =
      calculateAvailableSlots d₂ c₂ s₂ r₂ tb₂ sp₂ := by
  subst hd hc hs hr htb hsp
  rfl

theorem calculateAvailableSlots_deterministic_witness :
    calculateAvailableSlots dateA 2 settingsA [res18] [tableA] [] =
      calculateAvailableSlots dateA 2 settingsA [res18] [tableA] [] :=
  calculateAvailableSlots_deterministic dateA dateA 2 2 settingsA settingsA
    [res18] [res18] [tableA] [tableA] [] [] rfl rfl rfl rfl rfl rfl

/-- C2: a conflict between a candidate slot and a reservation on the same
table is exactly half-open interval overlap (`slotStart < resStart + turnover`
and `slotStart + turnover > resStart`); concretely, with a reservation at
18:00 and 60-minute turnover, the 19:00 slot still offers the table while
no 18:30 or 17:45 slot is returned. -/
theorem conflict_halfopen_overlap :
    (∀ (turnoverMinutes : Nat) (reservations : List Reservation)
        (eligibleTables : List Table) (t : Nat) (table : Table),
      table ∈ availableTablesAt turnoverMinutes reservations eligibleTables t ↔
        table ∈ eligibleTables ∧
          ∀ r ∈ reservations, r.tableId = some table.id →
            ¬(t < toMinutes r.time + turnoverMinutes ∧
              t + turnoverMinutes > toMinutes r.time)) ∧
    (⟨"19:00", [tableA]⟩ : TimeSlot) ∈
      calculateAvailableSlots dateA 2 settingsOverlap [res18] [tableA] [] ∧
    "18:30" ∉ (calculateAvailableSlots dateA 2 settingsOverlap [res18] [tableA] []).map
      TimeSlot.time ∧
    "17:45" ∉ (calculateAvailableSlots dateA 2 settingsOverlap [res18] [tableA] []).map
      TimeSlot.time :=
  ⟨mem_availableTablesAt, by decide, by decide, by decide⟩

/-- C1: every slot the engine returns carries, for the loop time `t` it was
built from, exactly the conflict-free filter of the eligible-tables list
(hence non-empty and in the eligible tables' original relative order), and
no returned slot/table pair overlaps any supplied reservation's occupancy
window on that table. -/
theorem slot_tables_exact (date : DateInput) (covers : Nat) (settings : Settings)
    (reservations : List Reservation) (tables : List Table)
    (specialOpeningHours : List SpecialOpeningHour) :
    ∀ slot ∈ calculateAvailableSlots date covers settings reservations tables
        specialOpeningHours,
      ∃ t,
        slot.time = formatSlotTime t ∧
        slot.availableTables =
          availableTablesAt settings.turnoverMinutes reservations
            (tables.filter fun tb => decide (tb.capacity ≥ covers) && tb.isReady) t ∧
        slot.availableTables ≠ [] ∧
        ∀ table ∈ slot.availableTables,
          table ∈ tables.filter (fun tb => decide (tb.capacity ≥ covers) && tb.isReady) ∧
          ∀ r ∈ reservations, r.tableId = some table.id →
            ¬(t < toMinutes r.time + settings.turnoverMinutes ∧
              t + settings.turnoverMinutes > toMinutes r.time) := by
  intro slot hmem
  rcases calculateAvailableSlots_shape date settings reservations tables specialOpeningHours
    with hempty | ⟨oh, hoh⟩
  · rw [hempty covers] at hmem
    exact absurd hmem (List.not_mem_nil _)
  · rw [hoh covers] at hmem
    obtain ⟨t, _, htime, htables, hne⟩ :=
      mem_computeWithHours oh covers settings reservations tables slot hmem
    refine ⟨t, htime, htables, hne, ?_⟩
    intro table htab
    rw [htables] at htab
    exact (mem_availableTablesAt _ _ _ _ _).mp htab

theorem slot_tables_exact_witness :
    ∃ t,
      ("17:00" : String) = formatSlotTime t ∧
      ([tableA] : List Table) =
        availableTablesAt 90 []
          ([tableA].filter fun tb => decide (tb.capacity ≥ 2) && tb.isReady) t ∧
      ([tableA] : List Table) ≠ [] ∧
      ∀ table ∈ ([tableA] : List Table),
        table ∈ [tableA].filter (fun tb => decide (tb.capacity ≥ 2) && tb.isReady) ∧
        ∀ r ∈ ([] : List Reservation), r.tableId = some table.id →
          ¬(t < toMinutes r.time + 90 ∧ t + 90 > toMinutes r.time) :=
  slot_tables_exact dateA 2 settingsA [] [tableA] [] ⟨"17:00", [tableA]⟩ (by decide)

/-- C5: only ready tables of sufficient capacity are ever offered; a
not-ready table is excluded from every slot, and a party size exceeding
every capacity gives the empty result. -/
theorem eligibility_filter (date : DateInput) (covers : Nat) (settings : Settings)
    (reservations : List Reservation) (tables : List Table)
    (specialOpeningHours : List SpecialOpeningHour) :
    (∀ slot ∈ calculateAvailableSlots date covers settings reservations tables
        specialOpeningHours,
      ∀ table ∈ slot.availableTables, covers ≤ table.capacity ∧ table.isReady = true) ∧
    ((∀ tb ∈ tables, tb.capacity < covers) →
      calculateAvailableSlots date covers settings reservations tables
        specialOpeningHours = []) ∧
    (∀ tb ∈ tables, tb.isReady = false →
      ∀ slot ∈ calculateAvailableSlots date covers settings reservations tables
          specialOpeningHours,
        tb ∉ slot.availableTables) := by
  have hfields : ∀ slot ∈ calculateAvailableSlots date covers settings reservations tables
      specialOpeningHours,
      ∀ table ∈ slot.availableTables, covers ≤ table.capacity ∧ table.isReady = true := by
    intro slot hmem table htab
    obtain ⟨t, _, _, _, hall⟩ :=
      slot_tables_exact date covers settings reservations tables specialOpeningHours slot hmem
    have := (hall table htab).1
    rw [List.mem_filter] at this
    have hb := this.2
    simp only [Bool.and_eq_true, decide_eq_true_eq] at hb
    exact ⟨hb.1, hb.2⟩
  refine ⟨hfields, ?_, ?_⟩
  · intro hsmall
    have hnil : tables.filter (fun tb => decide (tb.capacity ≥ covers) && tb.isReady) = [] := by
      rw [List.filter_eq_nil_iff]
      intro tb htb
      simp only [Bool.and_eq_true, decide_eq_true_eq, not_and]
      intro hcap
      exact absurd hcap (by exact Nat.not_le.mpr (hsmall tb htb))
    rcases calculateAvailableSlots_shape date settings reservations tables specialOpeningHours
      with hempty | ⟨oh, hoh⟩
    · exact hempty covers
    · rw [hoh covers]
      simp only [computeWithHours, hnil, List.length_nil]
      split <;> simp
  · intro tb _ hnotready slot hmem htab
    have := (hfields slot hmem tb htab).2
    rw [hnotready] at this
    cases this

theorem eligibility_filter_witness :
    calculateAvailableSlots dateA 5 settingsA [] [tableA] [] = [] :=
  (eligibility_filter dateA 5 settingsA [] [tableA] []).2.1
    (by intro tb htb; simp only [List.mem_singleton] at htb; subst htb; decide)

/-- C3: effective opening hours resolution.  A special-hours override for
the exact date is consulted first: marked not open or lacking a time means
the empty result regardless of the weekday default; open with its times
means those hours are used.  Only without an override is the weekday
default consulted: an absent entry means empty, and an entry lacking an
open time means empty. -/
theorem hours_resolution (date : DateInput) (covers : Nat) (settings : Settings)
    (reservations : List Reservation) (tables : List Table)
    (specialOpeningHours : List SpecialOpeningHour) :
    (∀ sh, specialOpeningHours.find? (fun h => h.date == date.isoDate) = some sh →
      (sh.isOpen = false ∨ sh.openTime = none ∨ sh.closeTime = none) →
      calculateAvailableSlots date covers settings reservations tables
        specialOpeningHours = []) ∧
    (∀ sh o c, specialOpeningHours.find? (fun h => h.date == date.isoDate) = some sh →
      sh.isOpen = true → sh.openTime = some o → sh.closeTime = some c →
      o ≠ "" → c ≠ "" →
      calculateAvailableSlots date covers settings reservations tables
        specialOpeningHours =
        computeWithHours ⟨o, c⟩ covers settings reservations tables) ∧
    (specialOpeningHours.find? (fun h => h.date == date.isoDate) = none →
      ∀ oh, settings.openingHours.lookup date.dayOfWeek = some oh →
      calculateAvailableSlots date covers settings reservations tables
        specialOpeningHours =
        computeWithHours oh covers settings reservations tables) ∧
    (specialOpeningHours.find? (fun h => h.date == date.isoDate) = none →
      settings.openingHours.lookup date.dayOfWeek = none →
      calculateAvailableSlots date covers settings reservations tables
        specialOpeningHours = []) ∧
    (∀ oh : OpeningHours, oh.«open» = "" →
      computeWithHours oh covers settings reservations tables = []) := by
  refine ⟨?_, ?_, ?_, ?_, ?_⟩
  · intro sh hfind hcase
    rcases hcase with h | h | h <;>
      simp [calculateAvailableSlots, hfind, h, optFalsy]
  · intro sh o c hfind hopen ho hc hone hcne
    simp [calculateAvailableSlots, hfind, hopen, ho, hc, optFalsy,
      String.isEmpty_iff, hone, hcne]
  · intro hfind oh hlook
    simp only [calculateAvailableSlots]
    rw [hfind, hlook]
  · intro hfind hlook
    simp only [calculateAvailableSlots]
    rw [hfind, hlook]
  · intro oh hoh
    have hemp : oh.«open».isEmpty = true := by
      rw [hoh]
      rfl
    simp [computeWithHours, hemp]

theorem hours_resolution_witness :
    calculateAvailableSlots dateA 2 settingsA [] [tableA] [shClosed] = [] ∧
    calculateAvailableSlots dateA 2 settingsA [] [tableA] [shSpecial] =
      computeWithHours ⟨"18:00", "20:00"⟩ 2 settingsA [] [tableA] ∧
    calculateAvailableSlots dateA 2 settingsA [] [tableA] [] =
      computeWithHours ⟨"17:00", "19:00"⟩ 2 settingsA [] [tableA] ∧
    calculateAvailableSlots dateTue 2 settingsA [] [tableA] [] = [] :=
  ⟨(hours_resolution dateA 2 settingsA [] [tableA] [shClosed]).1 shClosed rfl
      (Or.inl rfl),
   (hours_resolution dateA 2 settingsA [] [tableA] [shSpecial]).2.1 shSpecial
      "18:00" "20:00" rfl rfl rfl rfl (by decide) (by decide),
   (hours_resolution dateA 2 settingsA [] [tableA] []).2.2.1 rfl
      ⟨"17:00", "19:00"⟩ rfl,
   (hours_resolution dateTue 2 settingsA [] [tableA] []).2.2.2.1 rfl rfl⟩

/-- C4: candidate slot starts are the opening time plus multiples of 15
minutes, exactly those strictly before the closing time (never the closing
time itself), in chronological order; open 17:00 / close 22:00 gives
exactly the 20 candidates 17:00, 17:15, ..., 21:45; and when the closing
time is at or before the opening time the result is empty, not an error. -/
theorem slot_enumeration :
    (∀ closingTime currentTime t : Nat,
      t ∈ candidateTimes closingTime currentTime ↔
        (∃ i, t = currentTime + 15 * i) ∧ t < closingTime) ∧
    (∀ closingTime currentTime : Nat,
      (candidateTimes closingTime currentTime).Pairwise (· < ·)) ∧
    candidateTimes (toMinutes "22:00") (toMinutes "17:00") =
      (List.range 20).map (fun i => 17 * 60 + 15 * i) ∧
    (∀ (oh : OpeningHours) (covers : Nat) (settings : Settings)
        (reservations : List Reservation) (tables : List Table),
      toMinutes oh.close ≤ toMinutes oh.«open» →
      computeWithHours oh covers settings reservations tables = []) := by
  refine ⟨mem_candidateTimes, candidateTimes_pairwise, by decide, ?_⟩
  intro oh covers settings reservations tables hle
  have hct : candidateTimes (toMinutes oh.close) (toMinutes oh.«open») = [] := by
    unfold candidateTimes
    exact slotLoopFuel_stop _ _ _ (by omega)
  by_cases h1 : oh.«open».isEmpty
  · simp [computeWithHours, h1]
  · simp only [computeWithHours, if_neg h1]
    by_cases h2 :
        (tables.filter fun tb => decide (tb.capacity ≥ covers) && tb.isReady).length = 0
    · rw [if_pos h2]
    · rw [if_neg h2, hct, List.filterMap_nil]

/-- C8: candidate slots align to the opening time, not to clock
quarter-hours: every candidate is the opening time plus a multiple of 15
minutes, and an opening time of 17:10 (closing 18:00) yields the slots
17:10, 17:25, 17:40, 17:55. -/
theorem slots_aligned_to_opening :
    (∀ closingTime currentTime t : Nat,
      t ∈ candidateTimes closingTime currentTime → ∃ i, t = currentTime + 15 * i) ∧
    calculateAvailableSlots dateA 2 settingsAlign [] [tableA] [] =
      [⟨"17:10", [tableA]⟩, ⟨"17:25", [tableA]⟩, ⟨"17:40", [tableA]⟩,
       ⟨"17:55", [tableA]⟩] := by
  constructor
  · intro closingTime currentTime t ht
    exact ((mem_candidateTimes closingTime currentTime t).mp ht).1
  · decide

/-- C9: the first special-hours entry matching the date determines the
result: appending further entries after a match changes nothing, and with
a matching head entry the tail is ignored entirely. -/
theorem first_special_match_wins (date : DateInput) (covers : Nat) (settings : Settings)
    (reservations : List Reservation) (tables : List Table)
    (specials rest : List SpecialOpeningHour) (sh : SpecialOpeningHour) :
    (specials.find? (fun h => h.date == date.isoDate) = some sh →
      calculateAvailableSlots date covers settings reservations tables
        (specials ++ rest) =
        calculateAvailableSlots date covers settings reservations tables specials) ∧
    (sh.date = date.isoDate →
      calculateAvailableSlots date covers settings reservations tables (sh :: rest) =
        calculateAvailableSlots date covers settings reservations tables [sh]) := by
  constructor
  · intro hfind
    have happ : (specials ++ rest).find? (fun h => h.date == date.isoDate) = some sh := by
      rw [List.find?_append, hfind]
      rfl
    simp only [calculateAvailableSlots]
    rw [happ, hfind]
  · intro hdate
    have hpos : (fun h : SpecialOpeningHour => h.date == date.isoDate) sh = true := by
      simp [hdate]
    have h1 : (sh :: rest).find? (fun h => h.date == date.isoDate) = some sh :=
      List.find?_cons_of_pos _ hpos
    have h2 : ([sh] : List SpecialOpeningHour).find?
        (fun h => h.date == date.isoDate) = some sh :=
      List.find?_cons_of_pos _ hpos
    simp only [calculateAvailableSlots]
    rw [h1, h2]

theorem first_special_match_wins_witness :
    calculateAvailableSlots dateA 2 settingsA [] [tableA] ([shClosed] ++ [shDup]) =
      calculateAvailableSlots dateA 2 settingsA [] [tableA] [shClosed] ∧
    calculateAvailableSlots dateA 2 settingsA [] [tableA] (shClosed :: [shDup]) =
      calculateAvailableSlots dateA 2 settingsA [] [tableA] [shClosed] :=
  ⟨(first_special_match_wins dateA 2 settingsA [] [tableA] [shClosed] [shDup]
      shClosed).1 rfl,
   (first_special_match_wins dateA 2 settingsA [] [tableA] [shClosed] [shDup]
      shClosed).2 rfl⟩

/-- C10: availability is antitone in party size.  The conflict check does
not read the party size, so for p at most p', every slot returned for p'
has a counterpart slot for p with the same time whose table list contains
every table offered for p'. -/
theorem availability_antitone_in_party_size (date : DateInput) (p p' : Nat)
    (settings : Settings) (reservations : List Reservation) (tables : List Table)
    (specialOpeningHours : List SpecialOpeningHour) (hpp : p ≤ p') :
    ∀ slot' ∈ calculateAvailableSlots date p' settings reservations tables
        specialOpeningHours,
      ∃ slot ∈ calculateAvailableSlots date p settings reservations tables
          specialOpeningHours,
        slot.time = slot'.time ∧
        ∀ tb ∈ slot'.availableTables, tb ∈ slot.availableTables := by
  intro slot' hmem'
  rcases calculateAvailableSlots_shape date settings reservations tables specialOpeningHours
    with hempty | ⟨oh, hoh⟩
  · rw [hempty p'] at hmem'
    exact absurd hmem' (List.not_mem_nil _)
  · rw [hoh p'] at hmem'
    obtain ⟨t, ht, htime, htables, hne⟩ :=
      mem_computeWithHours oh p' settings reservations tables slot' hmem'
    have hsub : ∀ x : Table,
        x ∈ tables.filter (fun tb => decide (tb.capacity ≥ p') && tb.isReady) →
        x ∈ tables.filter (fun tb => decide (tb.capacity ≥ p) && tb.isReady) := by
      intro x hx
      rw [List.mem_filter] at hx ⊢
      refine ⟨hx.1, ?_⟩
      have hb := hx.2
      simp only [Bool.and_eq_true, decide_eq_true_eq] at hb ⊢
      exact ⟨le_trans hpp hb.1, hb.2⟩
    have havsub : ∀ x : Table,
        x ∈ availableTablesAt settings.turnoverMinutes reservations
            (tables.filter fun tb => decide (tb.capacity ≥ p') && tb.isReady) t →
        x ∈ availableTablesAt settings.turnoverMinutes reservations
            (tables.filter fun tb => decide (tb.capacity ≥ p) && tb.isReady) t := by
      intro x hx
      rw [mem_availableTablesAt] at hx ⊢
      exact ⟨hsub x hx.1, hx.2⟩
    have hne' : availableTablesAt settings.turnoverMinutes reservations
        (tables.filter fun tb => decide (tb.capacity ≥ p') && tb.isReady) t ≠ [] := by
      rw [← htables]
      exact hne
    obtain ⟨x, hx⟩ := List.exists_mem_of_ne_nil _ hne'
    have hxp := havsub x hx
    have hnep : availableTablesAt settings.turnoverMinutes reservations
        (tables.filter fun tb => decide (tb.capacity ≥ p) && tb.isReady) t ≠ [] :=
      List.ne_nil_of_mem hxp
    have h1 : ¬ oh.«open».isEmpty := by
      intro hcontra
      simp [computeWithHours, hcontra] at hmem'
    have h2 : ¬ (tables.filter fun tb => decide (tb.capacity ≥ p) && tb.isReady).length = 0 := by
      intro hlen
      have hnil : tables.filter (fun tb => decide (tb.capacity ≥ p) && tb.isReady) = [] :=
        List.length_eq_zero.mp hlen
      have hxelig := ((mem_availableTablesAt _ _ _ _ _).mp hxp).1
      rw [hnil] at hxelig
      exact absurd hxelig (List.not_mem_nil _)
    have hmemres := computeWithHours_mem oh p settings reservations tables t h1 h2 ht hnep
    rw [hoh p]
    refine ⟨⟨formatSlotTime t,
      availableTablesAt settings.turnoverMinutes reservations
        (tables.filter fun tb => decide (tb.capacity ≥ p) && tb.isReady) t⟩,
      hmemres, htime.symm, ?_⟩
    intro tb htb
    rw [htables] at htb
    exact havsub tb htb

theorem availability_antitone_witness :
    ∃ slot ∈ calculateAvailableSlots dateA 2 settingsA [] [tableA] [],
      slot.time = (⟨"17:00", [tableA]⟩ : TimeSlot).time ∧
      ∀ tb ∈ (⟨"17:00", [tableA]⟩ : TimeSlot).availableTables,
        tb ∈ slot.availableTables :=
  availability_antitone_in_party_size dateA 2 3 settingsA [] [tableA] [] (by decide)
    ⟨"17:00", [tableA]⟩ (by decide)
